import Mathlib

/-!
# Verification of the `mwc_growth` analysis code

A shallow embedding, over the real numbers, of the numerical routines of the
`mwc_growth` repository that its specification talks about:

* the calibration-factor log posterior `log_posterior` of
  `code/analysis/cal_factor_EDA.py`, its grid-search / scalar-optimization
  evaluation, and the closed-form posterior it is the logarithm of;
* the Monod-Wyman-Changeux model class `MWC` and the `SimpleRepression`
  class of `mwc/model.py`;
* the `ecdf` and `bin_by_events` helpers of `mwc/stats.py`;

together with theorems settling the specification's claims about them.

Arrays of intensities are modelled as functions `Fin n → ℝ`, dataframes as
lists of rows, and Python exceptions (`ValueError`, `RuntimeError`,
`NameError`) as `Except String` results.
-/

open Filter Topology

/-- `scipy.special.gammaln`: the logarithm of (the absolute value of) the
gamma function.  `Real.log` already coincides with `log |·|` on negative
arguments, so `Real.log (Real.Gamma x)` is the faithful real-valued model. -/
noncomputable def gammaln (x : ℝ) : ℝ := Real.log (Real.Gamma x)

/-- The density of `scipy.stats.halfnorm(0, scale)`: a half-normal
distribution with location `0` and the given scale, vanishing on negatives. -/
noncomputable def halfnorm_pdf (scale x : ℝ) : ℝ :=
  if x < 0 then 0
  else Real.sqrt (2 / Real.pi) * Real.exp (-(x ^ 2) / (2 * scale ^ 2)) / scale

/-- `scipy.stats.halfnorm(0, scale).logpdf(x)`. -/
noncomputable def halfnorm_logpdf (scale x : ℝ) : ℝ := Real.log (halfnorm_pdf scale x)

/-- The body of `log_posterior` in `code/analysis/cal_factor_EDA.py` after the
negative-intensity check: prefactor, gamma approximation of the binomial,
half-normal(0, 500) log prior, partitioning term and change-of-variables
term, exactly in the source's arrangement. -/
noncomputable def log_posterior_val {n : ℕ} (alpha : ℝ) (I1 I2 : Fin n → ℝ)
    (negative : Bool) : ℝ :=
  let prefactor : ℝ := if negative then -1 else 1
  let n1 : Fin n → ℝ := fun i => I1 i / alpha
  let n2 : Fin n → ℝ := fun i => I2 i / alpha
  let ntot : Fin n → ℝ := fun i => (I1 i + I2 i) / alpha
  let binom : ℝ := (∑ i, gammaln (ntot i + 1)) - (∑ i, gammaln (n1 i + 1)) -
      (∑ i, gammaln (n2 i + 1))
  let log_prior : ℝ := halfnorm_logpdf 500 alpha
  let prob : ℝ := -(∑ i, ntot i) * Real.log 2
  let cov : ℝ := -(n : ℝ) * Real.log alpha
  prefactor * (prob + cov + binom + log_prior)

open Classical in
/-- `log_posterior(alpha, I1, I2, negative)` from
`code/analysis/cal_factor_EDA.py`: raises `ValueError` when any intensity is
negative, otherwise returns the (possibly negated) log posterior value. -/
noncomputable def log_posterior {n : ℕ} (alpha : ℝ) (I1 I2 : Fin n → ℝ)
    (negative : Bool) : Except String ℝ :=
  if (∃ i, I1 i < 0) ∨ (∃ i, I2 i < 0) then
    Except.error "Negative values in I1 or I2"
  else
    Except.ok (log_posterior_val alpha I1 I2 negative)

/-- A `log_posterior` call threaded through arbitrary ambient script state:
the body of the source function only reads its arguments and the fixed
constants of the half-normal(0, 500) prior, and assigns no global, so the
call returns its value and passes any state through unchanged. -/
noncomputable def log_posterior_with_state {σ : Type} {n : ℕ} (s : σ)
    (alpha : ℝ) (I1 I2 : Fin n → ℝ) (negative : Bool) :
    Except String ℝ × σ :=
  (log_posterior alpha I1 I2 negative, s)

/-- The specification's closed-form posterior
`g(α | [I1, I2]) = g(α) · α^(-k) · ∏ᵢ Γ((I1ᵢ+I2ᵢ)/α + 1) /
(Γ(I1ᵢ/α + 1) · Γ(I2ᵢ/α + 1)) · 2^(-(I1ᵢ+I2ᵢ)/α)` with `k = n` the number of
division events and `g(α)` the half-normal(0, 500) prior. -/
noncomputable def posterior_density {n : ℕ} (alpha : ℝ) (I1 I2 : Fin n → ℝ) : ℝ :=
  halfnorm_pdf 500 alpha * alpha ^ (-(n : ℝ)) *
    (∏ i, Real.Gamma ((I1 i + I2 i) / alpha + 1) /
      (Real.Gamma (I1 i / alpha + 1) * Real.Gamma (I2 i / alpha + 1))) *
    (2 : ℝ) ^ (-(∑ i, (I1 i + I2 i) / alpha))


/-! ## Grid-search and scalar-optimization evaluation of the posterior -/

/-- `np.logspace(start, stop, num)` with the default `endpoint=True`:
`num` points `10 ^ (start + i·(stop-start)/(num-1))`. -/
noncomputable def logspace (start stop : ℝ) (num : ℕ) : Fin num → ℝ :=
  fun i => (10 : ℝ) ^ (start + (i : ℝ) * (stop - start) / ((num : ℝ) - 1))

/-- `alpha_range = np.logspace(0, 4.01, 500)` of `cal_factor_EDA.py`. -/
noncomputable def alpha_range : Fin 500 → ℝ := logspace 0 4.01 500

/-- `scipy.special.logsumexp` over a vector. -/
noncomputable def logsumexp {m : ℕ} (v : Fin m → ℝ) : ℝ :=
  Real.log (∑ i, Real.exp (v i))

/-- The `logp` array of a replicate: the log posterior evaluated at each grid
point of `alpha_range`. -/
noncomputable def replicate_logp {n : ℕ} (I1 I2 : Fin n → ℝ) : Fin 500 → ℝ :=
  fun i => log_posterior_val (alpha_range i) I1 I2 false

/-- The stored `post` column of a replicate:
`np.exp(logp - scipy.special.logsumexp(logp))`. -/
noncomputable def replicate_post {n : ℕ} (I1 I2 : Fin n → ℝ) : Fin 500 → ℝ :=
  fun i => Real.exp (replicate_logp I1 I2 i - logsumexp (replicate_logp I1 I2))

/-! ## The `MWC` and `SimpleRepression` classes of `mwc/model.py` -/

/-- The state of an `MWC` instance after `__init__`: effector concentration,
allosteric energy difference, number of binding sites and the (possibly
log-transform-exponentiated) dissociation constants. -/
structure MWC where
  c : ℝ
  ep_ai : ℝ
  n : ℝ
  ka : ℝ
  ki : ℝ

/-- `MWC.__init__` of `mwc/model.py`, modelled for scalar arguments.  The
`NoneType` guard of the source compares `type(x)` with `None` and therefore
never fires, so it is omitted; the zero check runs on the raw `ka`, `ki`
(wrapped by the always-true `type(ka) is float or int` test) and the
positivity checks run on the assigned attributes, in the source's
(insertion) order `effector_conc, ka, ki, n_sites`. -/
noncomputable def MWC.init (effector_conc ka ki ep_ai n_sites : ℝ)
    (log_transform : Bool) : Except String MWC :=
  let ka' := if log_transform then Real.exp ka else ka
  let ki' := if log_transform then Real.exp ki else ki
  if ka = 0 ∨ ki = 0 then Except.error "ka and/or ki cannot be zero."
  else if effector_conc < 0 then Except.error "effector_conc must be positive."
  else if ka' < 0 then Except.error "ka must be positive."
  else if ki' < 0 then Except.error "ki must be positive."
  else if n_sites < 0 then Except.error "n_sites must be positive."
  else Except.ok ⟨effector_conc, ep_ai, n_sites, ka', ki'⟩

/-- `MWC.pact`: probability of the active state at the instance's
effector concentration. -/
noncomputable def MWC.pact (m : MWC) : ℝ :=
  let numer := (1 + m.c / m.ka) ^ m.n
  numer / (numer + Real.exp (-m.ep_ai) * (1 + m.c / m.ki) ^ m.n)

/-- `MWC.saturation`: the active-state probability in the limit of
saturating effector concentration. -/
noncomputable def MWC.saturation (m : MWC) : ℝ :=
  (1 + Real.exp (-m.ep_ai) * (m.ka / m.ki) ^ m.n)⁻¹

/-- `MWC.leakiness`: the active-state probability at zero effector. -/
noncomputable def MWC.leakiness (m : MWC) : ℝ :=
  (1 + Real.exp (-m.ep_ai))⁻¹

/-- The state of a `SimpleRepression` instance after `__init__`: repressor
count, binding energy, nonspecific sites, and — when allosteric keyword
arguments were given — the constructed `MWC` instance. -/
structure SimpleRepression where
  R : ℝ
  ep_r : ℝ
  n_ns : ℝ
  mwc : Option MWC

/-- `self.allo`: `True` exactly when allosteric kwargs were passed to
`__init__` (and hence `self.mwc` was constructed). -/
def SimpleRepression.allo (s : SimpleRepression) : Bool := s.mwc.isSome

/-- The names bound at module level in `mwc/model.py`: the two imports and
the top-level `def`/`class` statements.  `fold_change`, `saturation` and
`leakiness` exist only as methods of `SimpleRepression`, not as module-level
names. -/
def model_module_names : List String :=
  ["np", "scipy", "load_constants", "MWC", "SimpleRepression"]

/-- Resolution of a bare global name inside a method body of `mwc/model.py`:
if the name is bound at module level the call proceeds, otherwise Python
raises `NameError` at the call site. -/
def pyGlobalCall (name : String) (call : Unit → Except String ℝ) :
    Except String ℝ :=
  if name ∈ model_module_names then call ()
  else Except.error ("NameError: name " ++ name ++ " is not defined")

/-- `SimpleRepression.saturation`: after the allostery guard, the source
computes `pact = self.mwc.saturation()` and then executes a bare `return`,
so the remaining fold-change computation is dead code. -/
noncomputable def SimpleRepression.saturation (s : SimpleRepression)
    (wpa : Bool) (num_pol : Option ℝ) (ep_pol : ℝ) : Except String (Option ℝ) :=
  if s.allo = false then
    Except.error
      "Saturation is only defined for allosteric molecules. (`allosteric = True`)"
  else
    match s.mwc with
    | some m =>
        let _pact := m.saturation
        Except.ok none
    | none => Except.ok none

/-- `SimpleRepression.leakiness`: computes `pact` (from the `MWC` instance
when allosteric, else `1`) and then calls the bare name `fold_change`, which
is not a module-level name. -/
noncomputable def SimpleRepression.leakiness (s : SimpleRepression)
    (wpa : Bool) (num_pol : Option ℝ) (ep_pol : ℝ) : Except String ℝ :=
  let _pact : ℝ := match s.mwc with
    | some m => m.leakiness
    | none => 1
  pyGlobalCall "fold_change"
    (fun _ => Except.error "unreachable: no module-level fold_change exists")

/-- `SimpleRepression.dynamic_range`: calls the bare names `saturation` and
`leakiness`, neither of which is a module-level name, and would return their
difference. -/
noncomputable def SimpleRepression.dynamic_range (s : SimpleRepression)
    (wpa : Bool) (num_pol : Option ℝ) (ep_pol : ℝ) : Except String ℝ := do
  let sat ← pyGlobalCall "saturation"
    (fun _ => Except.error "unreachable: no module-level saturation exists")
  let leak ← pyGlobalCall "leakiness"
    (fun _ => Except.error "unreachable: no module-level leakiness exists")
  pure (sat - leak)

/-! ## The `ecdf` and `bin_by_events` helpers of `mwc/stats.py` -/

/-- `mwc.stats.ecdf(data)`: returns
`np.sort(data), np.arange(0, len(data)) / len(data)`. -/
noncomputable def ecdf (data : List ℝ) : List ℝ × List ℝ :=
  (data.mergeSort fun a b => decide (a ≤ b),
   (List.range data.length).map fun i : ℕ => (i : ℝ) / (data.length : ℝ))

/-- A dataframe row, as the assignment of a real value to each column name. -/
abbrev Row : Type := String → ℝ

/-- `np.arange(0, stop, step)` over naturals, for positive step. -/
def arange0 (stop step : ℕ) : List ℕ :=
  (List.range ((stop + step - 1) / step)).map (· * step)

/-- The length of the `bins = np.arange(0, len(df) + bin_size, bin_size)`
array of `bin_by_events`. -/
def numBins (N b : ℕ) : ℕ := (arange0 (N + b) b).length

/-- `df.sort_values(sortby)`: the rows in ascending order of the `sortby`
column. -/
noncomputable def sort_values (df : List Row) (sortby : String) : List Row :=
  df.mergeSort fun a b => decide (a sortby ≤ b sortby)

/-- `np.mean` of a list of values. -/
noncomputable def npMean (l : List ℝ) : ℝ := l.sum / l.length

/-- `np.std` (population standard deviation, `ddof = 0`) of a list. -/
noncomputable def npStd (l : List ℝ) : ℝ :=
  Real.sqrt ((l.map fun x => (x - npMean l) ^ 2).sum / l.length)

/-- The values of column `k` in the `j`-th slice
`sorted_df.iloc[bins[j] : bins[j+1]]` of `bin_by_events`. -/
noncomputable def groupVals (df : List Row) (b : ℕ) (sortby k : String)
    (j : ℕ) : List ℝ :=
  (((sort_values df sortby).drop (j * b)).take b).map fun r => r k

/-- The update loop of `bin_by_events`: `for i in range(1, m + 1 ...)` writes
`g(i - 1)` into slot `i - 1` of the accumulating array. -/
noncomputable def fill_loop (g : ℕ → ℝ) (m : ℕ) (init : List ℝ) : List ℝ :=
  (List.range' 1 m).foldl (fun acc i => acc.set (i - 1) (g (i - 1))) init

/-- The `averages[k]` array of `bin_by_events`: a zero array of length
`len(bins)` whose entry `i - 1` is overwritten with the mean of slice
`i - 1`, for `i` in `range(1, len(bins))`. -/
noncomputable def mean_array (df : List Row) (b : ℕ) (sortby k : String) :
    List ℝ :=
  fill_loop (fun j => npMean (groupVals df b sortby k j))
    (numBins df.length b - 1) (List.replicate (numBins df.length b) 0)

/-- The `averages[f'{k}_sem']` array of `bin_by_events`: as `mean_array`, but
with `np.std(vals) / np.sqrt(len(d))` written into each slot. -/
noncomputable def sem_array (df : List Row) (b : ℕ) (sortby k : String) :
    List ℝ :=
  fill_loop
    (fun j => npStd (groupVals df b sortby k j) /
      Real.sqrt ((groupVals df b sortby k j).length))
    (numBins df.length b - 1) (List.replicate (numBins df.length b) 0)

/-- One Python slot assignment `averages[key][j] = v` on the dict: the array
currently stored under `key` gets its entry `j` overwritten; every other key
keeps its array.  A write to an absent key (which never happens in
`bin_by_events`: initialization covers every written key) leaves the dict
unchanged at other keys and `none` at `key`. -/
def dictWrite (d : String → Option (List ℝ)) (key : String) (j : ℕ)
    (v : ℝ) : String → Option (List ℝ) :=
  fun K => if K = key then (d key).map fun arr => arr.set j v else d K

/-- The `averages` dict of `bin_by_events` after its two initialization
loops: a zero array of length `len(bins)` under every averaged column name
and under every `f-string` `_sem` key.  Overwrites during initialization
replace zeros with fresh zeros, so only the key set matters; Python's dict
insertion order is not modelled (no claim mentions it). -/
def bin_init (B : ℕ) (average : List String) : String → Option (List ℝ) :=
  fun K =>
    if K ∈ average ∨ K ∈ average.map (· ++ "_sem") then
      some (List.replicate B 0)
    else none

/-- The body of the inner `for k in d.keys()` loop of `bin_by_events` at bin
slot `j`: first `averages[k_sem][j] = np.std(vals)/np.sqrt(len(d))`, then
`averages[k][j] = np.mean(vals)`, each an overwriting dict-slot write. -/
noncomputable def bin_step (df : List Row) (b : ℕ) (sortby : String) (j : ℕ)
    (d : String → Option (List ℝ)) (k : String) : String → Option (List ℝ) :=
  dictWrite
    (dictWrite d (k ++ "_sem") j
      (npStd (groupVals df b sortby k j) /
        Real.sqrt ((groupVals df b sortby k j).length)))
    k j (npMean (groupVals df b sortby k j))

/-- `mwc.stats.bin_by_events(df, bin_size, sortby, average)`: the returned
Python dict, with genuine overwrite semantics — later writes to a key
replace earlier ones, as when an averaged column is itself named
`k ++ "_sem"` for another averaged column `k`. -/
noncomputable def bin_by_events (df : List Row) (bin_size : ℕ)
    (sortby : String) (average : List String) : String → Option (List ℝ) :=
  (List.range' 1 (numBins df.length bin_size - 1)).foldl
    (fun d i => average.foldl
      (fun d' k => bin_step df bin_size sortby (i - 1) d' k) d)
    (bin_init (numBins df.length bin_size) average)

/-! ### Positivity and normalization of the posterior -/

lemma halfnorm_pdf_pos (scale x : ℝ) (hx : 0 ≤ x) (hs : 0 < scale) :
    0 < halfnorm_pdf scale x := by
  rw [halfnorm_pdf, if_neg (not_lt.mpr hx)]
  have h2 : (0 : ℝ) < 2 / Real.pi := by positivity
  positivity

lemma gamma_arg_pos {n : ℕ} (alpha : ℝ) (I : Fin n → ℝ) (ha : 0 < alpha)
    (hI : ∀ i, 0 ≤ I i) (i : Fin n) : 0 < Real.Gamma (I i / alpha + 1) :=
  Real.Gamma_pos_of_pos (by have := hI i; positivity)

/-- The non-negated log posterior value is the logarithm of the closed-form
posterior density. -/
lemma log_posterior_val_eq_log_density {n : ℕ} (alpha : ℝ) (I1 I2 : Fin n → ℝ)
    (ha : 0 < alpha) (h1 : ∀ i, 0 ≤ I1 i) (h2 : ∀ i, 0 ≤ I2 i) :
    log_posterior_val alpha I1 I2 false =
      Real.log (posterior_density alpha I1 I2) := by
  have hg1 : ∀ i : Fin n, 0 < Real.Gamma (I1 i / alpha + 1) :=
    gamma_arg_pos alpha I1 ha h1
  have hg2 : ∀ i : Fin n, 0 < Real.Gamma (I2 i / alpha + 1) :=
    gamma_arg_pos alpha I2 ha h2
  have hgt : ∀ i : Fin n, 0 < Real.Gamma ((I1 i + I2 i) / alpha + 1) := by
    intro i
    have := h1 i; have := h2 i
    exact Real.Gamma_pos_of_pos (by positivity)
  have hprod : ∀ i : Fin n,
      Real.Gamma ((I1 i + I2 i) / alpha + 1) /
        (Real.Gamma (I1 i / alpha + 1) * Real.Gamma (I2 i / alpha + 1)) ≠ 0 := by
    intro i
    have := hg1 i; have := hg2 i; have := hgt i
    positivity
  have hpdf : 0 < halfnorm_pdf 500 alpha := halfnorm_pdf_pos 500 alpha ha.le (by norm_num)
  have hrpow : (0 : ℝ) < alpha ^ (-(n : ℝ)) := Real.rpow_pos_of_pos ha _
  have hprodpos : (0 : ℝ) <
      ∏ i, Real.Gamma ((I1 i + I2 i) / alpha + 1) /
        (Real.Gamma (I1 i / alpha + 1) * Real.Gamma (I2 i / alpha + 1)) :=
    Finset.prod_pos fun i _ => by
      have := hg1 i; have := hg2 i; have := hgt i; positivity
  have h2pow : (0 : ℝ) < (2 : ℝ) ^ (-(∑ i, (I1 i + I2 i) / alpha)) :=
    Real.rpow_pos_of_pos (by norm_num) _
  rw [posterior_density, Real.log_mul (by positivity) h2pow.ne',
    Real.log_mul (by positivity) hprodpos.ne',
    Real.log_mul hpdf.ne' hrpow.ne',
    Real.log_rpow ha, Real.log_rpow (by norm_num : (0 : ℝ) < 2),
    Real.log_prod _ _ fun i _ => hprod i]
  have hlogq : ∀ i : Fin n,
      Real.log (Real.Gamma ((I1 i + I2 i) / alpha + 1) /
        (Real.Gamma (I1 i / alpha + 1) * Real.Gamma (I2 i / alpha + 1))) =
      gammaln ((I1 i + I2 i) / alpha + 1) - gammaln (I1 i / alpha + 1) -
        gammaln (I2 i / alpha + 1) := by
    intro i
    rw [Real.log_div (hgt i).ne' (by have := hg1 i; have := hg2 i; positivity),
      Real.log_mul (hg1 i).ne' (hg2 i).ne']
    simp [gammaln]
    ring
  rw [Finset.sum_congr rfl fun i _ => hlogq i]
  simp only [log_posterior_val, halfnorm_logpdf, Bool.false_eq_true, if_false,
    Finset.sum_sub_distrib]
  ring

/-- With nonnegative intensities `log_posterior` does not raise. -/
lemma log_posterior_ok {n : ℕ} (alpha : ℝ) (I1 I2 : Fin n → ℝ)
    (h1 : ∀ i, 0 ≤ I1 i) (h2 : ∀ i, 0 ≤ I2 i) (negative : Bool) :
    log_posterior alpha I1 I2 negative =
      Except.ok (log_posterior_val alpha I1 I2 negative) := by
  rw [log_posterior, if_neg]
  push_neg
  exact ⟨h1, h2⟩

lemma sum_exp_sub_logsumexp {m : ℕ} (hm : 0 < m) (v : Fin m → ℝ) :
    ∑ i, Real.exp (v i - logsumexp v) = 1 := by
  have hS : (0 : ℝ) < ∑ i, Real.exp (v i) :=
    Finset.sum_pos (fun i _ => Real.exp_pos _)
      (Finset.univ_nonempty_iff.mpr ⟨⟨0, hm⟩⟩)
  have : ∀ i : Fin m, Real.exp (v i - logsumexp v) =
      Real.exp (v i) / ∑ j, Real.exp (v j) := by
    intro i
    rw [Real.exp_sub, logsumexp, Real.exp_log hS]
  rw [Finset.sum_congr rfl fun i _ => this i, ← Finset.sum_div, div_self hS.ne']

/-! ### Characterization of the fill loop -/

lemma fill_loop_succ (g : ℕ → ℝ) (init : List ℝ) (m : ℕ) :
    fill_loop g (m + 1) init = (fill_loop g m init).set m (g m) := by
  rw [fill_loop, fill_loop, List.range'_concat, List.foldl_append]
  have hm : 1 + 1 * m - 1 = m := by omega
  simp only [List.foldl_cons, List.foldl_nil, hm]

lemma fill_loop_length (g : ℕ → ℝ) (init : List ℝ) (m : ℕ) :
    (fill_loop g m init).length = init.length := by
  induction m with
  | zero => rfl
  | succ m ih => rw [fill_loop_succ, List.length_set, ih]

lemma fill_loop_getElem? (g : ℕ → ℝ) (init : List ℝ) (m j : ℕ) :
    (fill_loop g m init)[j]? =
      if j < m ∧ j < init.length then some (g j) else init[j]? := by
  induction m with
  | zero => simp [fill_loop]
  | succ m ih =>
      rw [fill_loop_succ, List.getElem?_set, fill_loop_length]
      by_cases hjm : m = j
      · subst hjm
        by_cases hlen : m < init.length
        · rw [if_pos rfl, if_pos hlen, if_pos ⟨Nat.lt_succ_self m, hlen⟩]
        · rw [if_pos rfl, if_neg hlen, if_neg (fun h => hlen h.2),
            List.getElem?_eq_none (by omega)]
      · rw [if_neg hjm, ih]
        by_cases hj : j < m ∧ j < init.length
        · rw [if_pos hj, if_pos ⟨by omega, hj.2⟩]
        · rw [if_neg hj, if_neg (fun h => hj ⟨by omega, h.2⟩)]

lemma numBins_eq (N b : ℕ) : numBins N b = (N + 2 * b - 1) / b := by
  simp only [numBins, arange0, List.length_map, List.length_range]
  congr 1
  omega

lemma numBins_pos (N b : ℕ) (hb : 0 < b) : 0 < numBins N b := by
  rw [numBins_eq]
  exact Nat.div_pos (by omega) hb

lemma numBins_covers (N b : ℕ) (hb : 0 < b) :
    N ≤ (numBins N b - 1) * b := by
  have h1 := Nat.div_add_mod' (N + 2 * b - 1) b
  have h2 : (N + 2 * b - 1) % b < b := Nat.mod_lt _ hb
  obtain ⟨Q, hQ⟩ : ∃ Q, (N + 2 * b - 1) / b * b = Q := ⟨_, rfl⟩
  rw [numBins_eq, Nat.sub_one_mul, hQ]
  rw [hQ] at h1
  omega

lemma flatten_take_drop {α : Type} (b : ℕ) (m : ℕ) (l : List α)
    (h : l.length ≤ m * b) :
    ((List.range m).map fun j => (l.drop (j * b)).take b).flatten = l := by
  induction m generalizing l with
  | zero =>
      have hl : l = [] := List.eq_nil_of_length_eq_zero (by omega)
      simp [hl]
  | succ m ih =>
      rw [List.range_succ_eq_map, List.map_cons, List.flatten_cons,
        List.map_map]
      have hcomp : ((fun j => (l.drop (j * b)).take b) ∘ (· + 1)) =
          fun j => ((l.drop b).drop (j * b)).take b := by
        funext j
        simp only [Function.comp_apply, List.drop_drop]
        congr 2
        ring
      have hs : (m + 1) * b = m * b + b := Nat.succ_mul m b
      have hlen : (l.drop b).length ≤ m * b := by
        rw [List.length_drop]
        omega
      rw [hcomp, ih (l.drop b) hlen]
      simp [List.take_append_drop]

lemma sorted_mergeSort_key {α : Type} (key : α → ℝ) (l : List α) :
    List.Sorted (fun a b => key a ≤ key b)
      (l.mergeSort fun a b => decide (key a ≤ key b)) := by
  have h := @List.sorted_mergeSort α (fun a b => decide (key a ≤ key b))
    (fun a b c hab hbc =>
      decide_eq_true (le_trans (of_decide_eq_true hab) (of_decide_eq_true hbc)))
    (fun a b => by
      rcases le_total (key a) (key b) with h' | h' <;> simp [h']) l
  exact List.Pairwise.imp (fun hab => of_decide_eq_true hab) h

lemma string_append_cancel_right (s u t : String) (h : s ++ t = u ++ t) :
    s = u := by
  have hd : s.data ++ t.data = u.data ++ t.data := by
    rw [← String.data_append, ← String.data_append, h]
  exact congrArg String.mk (List.append_cancel_right hd)

lemma append_sem_ne (k : String) : k ++ "_sem" ≠ k := by
  intro h
  have hlen := congrArg String.length h
  rw [String.length_append] at hlen
  have h4 : ("_sem" : String).length = 4 := rfl
  omega

lemma dictWrite_ne (d : String → Option (List ℝ)) (key : String) (j : ℕ)
    (v : ℝ) (K : String) (h : K ≠ key) : dictWrite d key j v K = d K := by
  rw [dictWrite, if_neg h]

lemma dictWrite_eq (d : String → Option (List ℝ)) (key : String) (j : ℕ)
    (v : ℝ) (K : String) (h : K = key) :
    dictWrite d key j v K = (d key).map fun arr => arr.set j v := by
  rw [dictWrite, if_pos h]

lemma option_map_set_set (x : Option (List ℝ)) (j : ℕ) (v : ℝ) :
    Option.map ((fun arr : List ℝ => arr.set j v) ∘
      fun arr : List ℝ => arr.set j v) x =
      Option.map (fun arr : List ℝ => arr.set j v) x := by
  cases x with
  | none => rfl
  | some arr => simp [List.set_set]

lemma inner_foldl_untouched (df : List Row) (b : ℕ) (sortby : String)
    (j : ℕ) (avg : List String) (K : String) (hK : K ∉ avg)
    (hs : ∀ k' ∈ avg, k' ++ "_sem" ≠ K) (d : String → Option (List ℝ)) :
    (avg.foldl (fun d' k' => bin_step df b sortby j d' k') d) K = d K := by
  induction avg generalizing d with
  | nil => rfl
  | cons a t ih =>
      have hKa : K ≠ a := fun h => hK (h ▸ List.mem_cons_self a t)
      have hKs : K ≠ a ++ "_sem" :=
        fun h => hs a (List.mem_cons_self a t) h.symm
      rw [List.foldl_cons,
        ih (fun h => hK (List.mem_cons_of_mem a h))
          (fun k' hk' => hs k' (List.mem_cons_of_mem a hk'))]
      rw [bin_step, dictWrite, if_neg hKa, dictWrite, if_neg hKs]

lemma inner_foldl_mean (df : List Row) (b : ℕ) (sortby : String) (j : ℕ)
    (avg : List String) (k : String) (hk : k ∈ avg)
    (hs : ∀ k' ∈ avg, k' ++ "_sem" ≠ k) (d : String → Option (List ℝ)) :
    (avg.foldl (fun d' k' => bin_step df b sortby j d' k') d) k =
      (d k).map fun arr => arr.set j (npMean (groupVals df b sortby k j)) := by
  induction avg generalizing d with
  | nil => cases hk
  | cons a t ih =>
      rw [List.foldl_cons]
      by_cases hak : a = k
      · subst hak
        have hstep : bin_step df b sortby j d a a =
            (d a).map fun arr =>
              arr.set j (npMean (groupVals df b sortby a j)) := by
          rw [bin_step, dictWrite, if_pos rfl, dictWrite,
            if_neg (fun h => append_sem_ne a h.symm)]
        by_cases hat : a ∈ t
        · rw [ih hat (fun k' hk' => hs k' (List.mem_cons_of_mem a hk')),
            hstep, Option.map_map]
          exact option_map_set_set (d a) j _
        · rw [inner_foldl_untouched df b sortby j t a hat
            (fun k' hk' => hs k' (List.mem_cons_of_mem a hk')), hstep]
      · have hkt : k ∈ t := (List.mem_cons.mp hk).resolve_left
          (fun h => hak h.symm)
        have hstep : bin_step df b sortby j d a k = d k := by
          rw [bin_step, dictWrite, if_neg (fun h => hak h.symm), dictWrite,
            if_neg (fun h => hs a (List.mem_cons_self a t) h.symm)]
        rw [ih hkt (fun k' hk' => hs k' (List.mem_cons_of_mem a hk')), hstep]

lemma inner_foldl_sem (df : List Row) (b : ℕ) (sortby : String) (j : ℕ)
    (avg : List String) (k : String) (hk : k ∈ avg)
    (hns : k ++ "_sem" ∉ avg) (d : String → Option (List ℝ)) :
    (avg.foldl (fun d' k' => bin_step df b sortby j d' k') d) (k ++ "_sem") =
      (d (k ++ "_sem")).map fun arr => arr.set j
        (npStd (groupVals df b sortby k j) /
          Real.sqrt ((groupVals df b sortby k j).length)) := by
  induction avg generalizing d with
  | nil => cases hk
  | cons a t ih =>
      rw [List.foldl_cons]
      by_cases hak : a = k
      · subst hak
        have hstep : bin_step df b sortby j d a (a ++ "_sem") =
            (d (a ++ "_sem")).map fun arr => arr.set j
              (npStd (groupVals df b sortby a j) /
                Real.sqrt ((groupVals df b sortby a j).length)) := by
          rw [bin_step, dictWrite, if_neg (append_sem_ne a), dictWrite,
            if_pos rfl]
        by_cases hat : a ∈ t
        · rw [ih hat (fun h => hns (List.mem_cons_of_mem a h)),
            hstep, Option.map_map]
          exact option_map_set_set (d (a ++ "_sem")) j _
        · rw [inner_foldl_untouched df b sortby j t (a ++ "_sem")
            (fun h => hns (List.mem_cons_of_mem a h))
            (fun k' hk' h =>
              hat (string_append_cancel_right k' a "_sem" h ▸ hk')),
            hstep]
      · have hkt : k ∈ t := (List.mem_cons.mp hk).resolve_left
          (fun h => hak h.symm)
        have hne1 : k ++ "_sem" ≠ a :=
          fun h => hns (h ▸ List.mem_cons_self a t)
        have hne2 : k ++ "_sem" ≠ a ++ "_sem" :=
          fun h => hak (string_append_cancel_right a k "_sem" h.symm)
        have hstep : bin_step df b sortby j d a (k ++ "_sem") =
            d (k ++ "_sem") := by
          rw [bin_step, dictWrite, if_neg hne1, dictWrite, if_neg hne2]
        rw [ih hkt (fun h => hns (List.mem_cons_of_mem a h)), hstep]

lemma outer_foldl_eq
    (step : ℕ → (String → Option (List ℝ)) → String → Option (List ℝ))
    (K : String) (v : ℕ → ℝ)
    (hstep : ∀ j d, step j d K = (d K).map fun arr => arr.set j (v j))
    (m : ℕ) (d₀ : String → Option (List ℝ)) :
    ((List.range' 1 m).foldl (fun d i => step (i - 1) d) d₀) K =
      (d₀ K).map fun arr => fill_loop v m arr := by
  induction m with
  | zero =>
      show d₀ K = (d₀ K).map fun arr => fill_loop v 0 arr
      cases d₀ K <;> rfl
  | succ m ih =>
      rw [List.range'_concat, List.foldl_append]
      have hm : 1 + 1 * m - 1 = m := by omega
      simp only [List.foldl_cons, List.foldl_nil, hm]
      rw [hstep, ih, Option.map_map]
      cases d₀ K with
      | none => rfl
      | some arr =>
          simp only [Option.map_some', Function.comp_apply, fill_loop_succ]

/-- Under collision-free column names, the dict maps each averaged column to
its mean array. -/
lemma bin_by_events_mean_key (df : List Row) (b : ℕ) (sortby : String)
    (average : List String) (k : String) (hk : k ∈ average)
    (hcol : ∀ k₁ ∈ average, ∀ k₂ ∈ average, k₁ ++ "_sem" ≠ k₂) :
    bin_by_events df b sortby average k = some (mean_array df b sortby k) := by
  have h : bin_by_events df b sortby average k =
      (bin_init (numBins df.length b) average k).map fun arr =>
        fill_loop (fun j => npMean (groupVals df b sortby k j))
          (numBins df.length b - 1) arr :=
    outer_foldl_eq
      (fun j d => average.foldl (fun d' k' => bin_step df b sortby j d' k') d)
      k (fun j => npMean (groupVals df b sortby k j))
      (fun j d => inner_foldl_mean df b sortby j average k hk
        (fun k' hk' => hcol k' hk' k hk) d)
      (numBins df.length b - 1) (bin_init (numBins df.length b) average)
  rw [h, bin_init, if_pos (Or.inl hk), Option.map_some']
  rfl

/-- Under collision-free column names, the dict maps each `_sem` key to the
standard-error array of its column. -/
lemma bin_by_events_sem_key (df : List Row) (b : ℕ) (sortby : String)
    (average : List String) (k : String) (hk : k ∈ average)
    (hcol : ∀ k₁ ∈ average, ∀ k₂ ∈ average, k₁ ++ "_sem" ≠ k₂) :
    bin_by_events df b sortby average (k ++ "_sem") =
      some (sem_array df b sortby k) := by
  have hns : k ++ "_sem" ∉ average := fun h => hcol k hk (k ++ "_sem") h rfl
  have h : bin_by_events df b sortby average (k ++ "_sem") =
      (bin_init (numBins df.length b) average (k ++ "_sem")).map fun arr =>
        fill_loop
          (fun j => npStd (groupVals df b sortby k j) /
            Real.sqrt ((groupVals df b sortby k j).length))
          (numBins df.length b - 1) arr :=
    outer_foldl_eq
      (fun j d => average.foldl (fun d' k' => bin_step df b sortby j d' k') d)
      (k ++ "_sem")
      (fun j => npStd (groupVals df b sortby k j) /
        Real.sqrt ((groupVals df b sortby k j).length))
      (fun j d => inner_foldl_sem df b sortby j average k hk hns d)
      (numBins df.length b - 1) (bin_init (numBins df.length b) average)
  rw [h, bin_init,
    if_pos (Or.inr (List.mem_map_of_mem (· ++ "_sem") hk)),
    Option.map_some']
  rfl

lemma mean_array_length (df : List Row) (b : ℕ) (sortby k : String) :
    (mean_array df b sortby k).length = numBins df.length b := by
  rw [mean_array, fill_loop_length, List.length_replicate]

lemma sem_array_length (df : List Row) (b : ℕ) (sortby k : String) :
    (sem_array df b sortby k).length = numBins df.length b := by
  rw [sem_array, fill_loop_length, List.length_replicate]

lemma mean_array_getElem? (df : List Row) (b : ℕ) (sortby k : String) (j : ℕ)
    (hj : j + 1 < numBins df.length b) :
    (mean_array df b sortby k)[j]? =
      some (npMean (groupVals df b sortby k j)) := by
  rw [mean_array, fill_loop_getElem?, if_pos
    ⟨by omega, by rw [List.length_replicate]; omega⟩]

lemma sem_array_getElem? (df : List Row) (b : ℕ) (sortby k : String) (j : ℕ)
    (hj : j + 1 < numBins df.length b) :
    (sem_array df b sortby k)[j]? =
      some (npStd (groupVals df b sortby k j) /
        Real.sqrt ((groupVals df b sortby k j).length)) := by
  rw [sem_array, fill_loop_getElem?, if_pos
    ⟨by omega, by rw [List.length_replicate]; omega⟩]

lemma mean_array_last (df : List Row) (b : ℕ) (sortby k : String)
    (hb : 0 < b) :
    (mean_array df b sortby k)[numBins df.length b - 1]? = some 0 := by
  have hpos := numBins_pos df.length b hb
  rw [mean_array, fill_loop_getElem?,
    if_neg (fun h => absurd h.1 (lt_irrefl _)), List.getElem?_replicate,
    if_pos (by omega)]

lemma sem_array_last (df : List Row) (b : ℕ) (sortby k : String)
    (hb : 0 < b) :
    (sem_array df b sortby k)[numBins df.length b - 1]? = some 0 := by
  have hpos := numBins_pos df.length b hb
  rw [sem_array, fill_loop_getElem?,
    if_neg (fun h => absurd h.1 (lt_irrefl _)), List.getElem?_replicate,
    if_pos (by omega)]

/-! ### Negation and optimization helpers for the log posterior -/

lemma log_posterior_val_neg {n : ℕ} (alpha : ℝ) (I1 I2 : Fin n → ℝ) :
    log_posterior_val alpha I1 I2 true =
      -1 * log_posterior_val alpha I1 I2 false := by
  simp only [log_posterior_val, if_true, Bool.false_eq_true, if_false]
  ring

lemma isMaxOn_of_isMinOn_neg {f : ℝ → ℝ} {S : Set ℝ} {x : ℝ}
    (h : IsMinOn (fun a => -f a) S x) : IsMaxOn f S x := by
  rw [isMaxOn_iff]
  intro y hy
  have := isMinOn_iff.mp h y hy
  linarith

/-! ### Limits of `MWC.pact` -/

lemma pact_at_zero (m : MWC) :
    MWC.pact {m with c := 0} = (1 + Real.exp (-m.ep_ai))⁻¹ := by
  simp [MWC.pact, one_div]

lemma pact_tendsto_saturation (m : MWC) (hka : 0 < m.ka) (hki : 0 < m.ki) :
    Tendsto (fun c => MWC.pact {m with c := c}) atTop (𝓝 m.saturation) := by
  have hEpos : 0 < Real.exp (-m.ep_ai) := Real.exp_pos _
  have h0 : Tendsto (fun c : ℝ => m.ka + c) atTop atTop :=
    tendsto_atTop_add_const_left _ m.ka tendsto_id
  have h1 : Tendsto (fun c : ℝ => (m.ka + c)⁻¹) atTop (𝓝 0) :=
    tendsto_inv_atTop_zero.comp h0
  have h2 : Tendsto (fun c : ℝ => (m.ki - m.ka) * (m.ka + c)⁻¹) atTop
      (𝓝 0) := by
    have h := h1.const_mul (m.ki - m.ka)
    simpa using h
  have h3 : Tendsto
      (fun c : ℝ => m.ka / m.ki * (1 + (m.ki - m.ka) * (m.ka + c)⁻¹)) atTop
      (𝓝 (m.ka / m.ki)) := by
    have h := (h2.const_add 1).const_mul (m.ka / m.ki)
    simpa using h
  have hu : Tendsto (fun c : ℝ => (1 + c / m.ki) / (1 + c / m.ka)) atTop
      (𝓝 (m.ka / m.ki)) := by
    apply h3.congr'
    filter_upwards [eventually_ge_atTop (0 : ℝ)] with c hc
    have hkac : 0 < m.ka + c := by linarith
    field_simp
    ring
  have hratio : m.ka / m.ki ≠ 0 := by positivity
  have hpow : Tendsto
      (fun c : ℝ => ((1 + c / m.ki) / (1 + c / m.ka)) ^ m.n) atTop
      (𝓝 ((m.ka / m.ki) ^ m.n)) :=
    ((Real.continuousAt_rpow_const _ m.n (Or.inl hratio)).tendsto).comp hu
  have hden : (0 : ℝ) < 1 + Real.exp (-m.ep_ai) * (m.ka / m.ki) ^ m.n := by
    have hp : (0 : ℝ) < (m.ka / m.ki) ^ m.n :=
      Real.rpow_pos_of_pos (by positivity) _
    positivity
  have hfinal : Tendsto
      (fun c : ℝ =>
        (1 + Real.exp (-m.ep_ai) * ((1 + c / m.ki) / (1 + c / m.ka)) ^ m.n)⁻¹)
      atTop (𝓝 ((1 + Real.exp (-m.ep_ai) * (m.ka / m.ki) ^ m.n)⁻¹)) := by
    have h := ((hpow.const_mul (Real.exp (-m.ep_ai))).const_add 1).inv₀
      hden.ne'
    simpa using h
  rw [MWC.saturation]
  apply hfinal.congr'
  filter_upwards [eventually_ge_atTop (0 : ℝ)] with c hc
  have hdka : 0 ≤ c / m.ka := div_nonneg hc hka.le
  have hdki : 0 ≤ c / m.ki := div_nonneg hc hki.le
  have hb1 : (0 : ℝ) < 1 + c / m.ka := by linarith
  have hb2 : (0 : ℝ) < 1 + c / m.ki := by linarith
  have hnum : (0 : ℝ) < (1 + c / m.ka) ^ m.n := Real.rpow_pos_of_pos hb1 _
  have hd2 : (0 : ℝ) < (1 + c / m.ki) ^ m.n := Real.rpow_pos_of_pos hb2 _
  simp only [MWC.pact]
  rw [Real.div_rpow hb2.le hb1.le]
  have hfrac : (0 : ℝ) < (1 + c / m.ki) ^ m.n / (1 + c / m.ka) ^ m.n :=
    div_pos hd2 hnum
  have hX : (0 : ℝ) <
      1 + Real.exp (-m.ep_ai) * ((1 + c / m.ki) ^ m.n / (1 + c / m.ka) ^ m.n) := by
    have := mul_pos hEpos hfrac
    linarith
  have hC : (0 : ℝ) <
      (1 + c / m.ka) ^ m.n + Real.exp (-m.ep_ai) * (1 + c / m.ki) ^ m.n :=
    add_pos hnum (mul_pos hEpos hd2)
  rw [inv_eq_one_div, div_eq_div_iff hX.ne' hC.ne']
  field_simp


/-! ## Claims -/

/-- C1: for every calibration factor `alpha > 0` and every pair of
equal-length nonnegative intensity arrays, `log_posterior(alpha, I1, I2)`
returns the logarithm of the closed-form posterior `posterior_density`, and
that logarithm equals the sum of the half-normal(0, 500) log prior, the
change-of-variables term `-n·log alpha`, the `gammaln` approximation of the
log binomial coefficients, and the partitioning term
`-(log 2)·Σᵢ (I1ᵢ+I2ᵢ)/alpha`. -/
theorem C1_log_posterior_closed_form {n : ℕ} (alpha : ℝ) (I1 I2 : Fin n → ℝ)
    (ha : 0 < alpha) (h1 : ∀ i, 0 ≤ I1 i) (h2 : ∀ i, 0 ≤ I2 i) :
    log_posterior alpha I1 I2 false =
      Except.ok (Real.log (posterior_density alpha I1 I2)) ∧
    Real.log (posterior_density alpha I1 I2) =
      halfnorm_logpdf 500 alpha + -(n : ℝ) * Real.log alpha +
        ((∑ i, gammaln ((I1 i + I2 i) / alpha + 1)) -
          (∑ i, gammaln (I1 i / alpha + 1)) -
          (∑ i, gammaln (I2 i / alpha + 1))) +
        -Real.log 2 * ∑ i, (I1 i + I2 i) / alpha := by
  have hval := log_posterior_val_eq_log_density alpha I1 I2 ha h1 h2
  constructor
  · rw [log_posterior_ok alpha I1 I2 h1 h2 false, hval]
  · rw [← hval]
    simp only [log_posterior_val, Bool.false_eq_true, if_false]
    ring

/-- C1 witness: the closed-form identity at `alpha = 1`, `I1 = [2]`,
`I2 = [3]`. -/
theorem C1_log_posterior_closed_form_witness :
    log_posterior 1 (fun _ : Fin 1 => 2) (fun _ : Fin 1 => 3) false =
      Except.ok (Real.log
        (posterior_density 1 (fun _ : Fin 1 => 2) (fun _ : Fin 1 => 3))) :=
  (C1_log_posterior_closed_form 1 _ _ one_pos (fun _ => by norm_num)
    (fun _ => by norm_num)).1

/-- C5: for every `alpha > 0` and nonnegative intensity arrays,
`log_posterior` with `negative=True` returns exactly `-1` times the value it
returns with `negative=False`, so a set-wise minimizer of the negative log
posterior is a set-wise maximizer of the posterior `exp(log posterior)`. -/
theorem C5_negative_log_posterior {n : ℕ} (alpha : ℝ) (I1 I2 : Fin n → ℝ)
    (ha : 0 < alpha) (h1 : ∀ i, 0 ≤ I1 i) (h2 : ∀ i, 0 ≤ I2 i) :
    (∃ v : ℝ, log_posterior alpha I1 I2 false = Except.ok v ∧
      log_posterior alpha I1 I2 true = Except.ok (-1 * v)) ∧
    (∀ (S : Set ℝ) (aopt : ℝ),
      IsMinOn (fun a => log_posterior_val a I1 I2 true) S aopt →
      IsMaxOn (fun a => Real.exp (log_posterior_val a I1 I2 false)) S aopt) := by
  constructor
  · exact ⟨log_posterior_val alpha I1 I2 false,
      log_posterior_ok alpha I1 I2 h1 h2 false,
      by rw [log_posterior_ok alpha I1 I2 h1 h2 true,
        log_posterior_val_neg]⟩
  · intro S aopt hmin
    have hfun : (fun a => log_posterior_val a I1 I2 true) =
        fun a => -log_posterior_val a I1 I2 false :=
      funext fun a => by rw [log_posterior_val_neg]; ring
    rw [hfun] at hmin
    have hmax := isMaxOn_of_isMinOn_neg hmin
    rw [isMaxOn_iff] at hmax ⊢
    intro y hy
    exact Real.exp_le_exp.mpr (hmax y hy)

/-- C5 witness: both evaluation modes at `alpha = 1`, `I1 = I2 = [1]`,
related by the factor `-1`. -/
theorem C5_negative_log_posterior_witness :
    ∃ v : ℝ,
      log_posterior 1 (fun _ : Fin 1 => 1) (fun _ : Fin 1 => 1) false =
        Except.ok v ∧
      log_posterior 1 (fun _ : Fin 1 => 1) (fun _ : Fin 1 => 1) true =
        Except.ok (-1 * v) :=
  (C5_negative_log_posterior 1 _ _ one_pos (fun _ => by norm_num)
    (fun _ => by norm_num)).1

/-- C6: `log_posterior` is deterministic and stateless: two calls with equal
arguments return equal values whatever the ambient state is, and the ambient
state is passed through unchanged. -/
theorem C6_log_posterior_pure {σ : Type} {n : ℕ} (s₁ s₂ : σ) (a a' : ℝ)
    (I1 I1' I2 I2' : Fin n → ℝ) (neg neg' : Bool) (ha : a = a')
    (hI1 : I1 = I1') (hI2 : I2 = I2') (hneg : neg = neg') :
    (log_posterior_with_state s₁ a I1 I2 neg).1 =
      (log_posterior_with_state s₂ a' I1' I2' neg').1 ∧
    (log_posterior_with_state s₁ a I1 I2 neg).2 = s₁ := by
  subst ha
  subst hI1
  subst hI2
  subst hneg
  exact ⟨rfl, rfl⟩

/-- C6 witness: two concrete calls with equal arguments under different
ambient states. -/
theorem C6_log_posterior_pure_witness :
    (log_posterior_with_state true 1 (fun _ : Fin 1 => 2)
      (fun _ : Fin 1 => 3) false).1 =
      (log_posterior_with_state false 1 (fun _ : Fin 1 => 2)
        (fun _ : Fin 1 => 3) false).1 ∧
    (log_posterior_with_state true 1 (fun _ : Fin 1 => 2)
      (fun _ : Fin 1 => 3) false).2 = true :=
  C6_log_posterior_pure true false 1 1 _ _ _ _ false false rfl rfl rfl rfl

/-- C3 counterexample: the data path does validate input in at least one
place — `log_posterior` raises a deliberate
`ValueError("Negative values in I1 or I2")` on the malformed input
`I1 = [-1]`. -/
theorem C3_counterexample_validation_exists :
    log_posterior 1 (fun _ : Fin 1 => (-1 : ℝ)) (fun _ : Fin 1 => 1) false =
      Except.error "Negative values in I1 or I2" := by
  rw [log_posterior, if_pos (Or.inl ⟨0, by norm_num⟩)]

/-- C3 (amended): failure handling on the data path is mostly absent, but
not entirely: `log_posterior` raises `ValueError` whenever an intensity is
negative, and `MWC.__init__` raises `ValueError` whenever `ka` or `ki` is
zero. -/
theorem C3_validation_behaviour :
    (∀ {n : ℕ} (alpha : ℝ) (I1 I2 : Fin n → ℝ) (negative : Bool),
      ((∃ i, I1 i < 0) ∨ (∃ i, I2 i < 0)) →
      log_posterior alpha I1 I2 negative =
        Except.error "Negative values in I1 or I2") ∧
    (∀ (effector_conc ka ki ep_ai n_sites : ℝ) (log_transform : Bool),
      (ka = 0 ∨ ki = 0) →
      MWC.init effector_conc ka ki ep_ai n_sites log_transform =
        Except.error "ka and/or ki cannot be zero.") := by
  constructor
  · intro n alpha I1 I2 negative h
    rw [log_posterior, if_pos h]
  · intro c ka ki ep ns lt h
    simp only [MWC.init]
    rw [if_pos h]

/-- C3 witness: both validation errors fire at concrete malformed inputs. -/
theorem C3_validation_behaviour_witness :
    log_posterior 1 (fun _ : Fin 1 => (-2 : ℝ)) (fun _ : Fin 1 => 1) false =
      Except.error "Negative values in I1 or I2" ∧
    MWC.init 0 0 1 4.5 2 false =
      Except.error "ka and/or ki cannot be zero." :=
  ⟨C3_validation_behaviour.1 1 _ _ false (Or.inl ⟨0, by norm_num⟩),
   C3_validation_behaviour.2 0 0 1 4.5 2 false (Or.inl rfl)⟩

/-- C2: per replicate, the posterior is evaluated in two ways: on the grid
`np.logspace(0, 4.01, 500)` (whose `i`-th point is `10^(i·4.01/499)`), where
the logsumexp-normalized `post` column sums to 1; and by scalar optimization
of the `negative=True` log posterior, whose set-wise minimizer is a set-wise
maximizer of the log posterior, i.e. the MAP estimate. -/
theorem C2_grid_and_map {n : ℕ} (I1 I2 : Fin n → ℝ) (h1 : ∀ i, 0 ≤ I1 i)
    (h2 : ∀ i, 0 ≤ I2 i) :
    (∀ i : Fin 500, alpha_range i = (10 : ℝ) ^ ((i : ℝ) * 4.01 / 499)) ∧
    (∀ i : Fin 500, log_posterior (alpha_range i) I1 I2 false =
      Except.ok (replicate_logp I1 I2 i)) ∧
    (∑ i, replicate_post I1 I2 i = 1) ∧
    (∀ alpha : ℝ, log_posterior alpha I1 I2 true =
      Except.ok (-1 * log_posterior_val alpha I1 I2 false)) ∧
    (∀ (S : Set ℝ) (aopt : ℝ),
      IsMinOn (fun a => log_posterior_val a I1 I2 true) S aopt →
      IsMaxOn (fun a => log_posterior_val a I1 I2 false) S aopt) := by
  refine ⟨?_, ?_, ?_, ?_, ?_⟩
  · intro i
    rw [alpha_range, logspace]
    norm_num
  · intro i
    exact log_posterior_ok _ I1 I2 h1 h2 false
  · exact sum_exp_sub_logsumexp (by norm_num) (replicate_logp I1 I2)
  · intro alpha
    rw [log_posterior_ok alpha I1 I2 h1 h2 true, log_posterior_val_neg]
  · intro S aopt hmin
    have hfun : (fun a => log_posterior_val a I1 I2 true) =
        fun a => -log_posterior_val a I1 I2 false :=
      funext fun a => by rw [log_posterior_val_neg]; ring
    rw [hfun] at hmin
    exact isMaxOn_of_isMinOn_neg hmin

/-- C2 witness: the normalized grid posterior of the replicate
`I1 = I2 = [1]` sums to 1. -/
theorem C2_grid_and_map_witness :
    ∑ i, replicate_post (fun _ : Fin 1 => (1 : ℝ))
      (fun _ : Fin 1 => (1 : ℝ)) i = 1 :=
  (C2_grid_and_map _ _ (fun _ => by norm_num)
    (fun _ => by norm_num)).2.2.1

/-- C4: for an `MWC` instance with positive `ka`, `ki`, `n_sites`,
`leakiness()` is `pact()` at zero effector concentration, namely
`(1 + e^(-ep_ai))⁻¹`, and `saturation()` is the limit of `pact()` as the
effector concentration tends to infinity, namely
`(1 + e^(-ep_ai)·(ka/ki)^n)⁻¹`. -/
theorem C4_leakiness_saturation_limits (m : MWC) (hka : 0 < m.ka)
    (hki : 0 < m.ki) (hn : 0 < m.n) :
    MWC.leakiness m = MWC.pact {m with c := 0} ∧
    MWC.leakiness m = (1 + Real.exp (-m.ep_ai))⁻¹ ∧
    Tendsto (fun c => MWC.pact {m with c := c}) atTop
      (𝓝 (MWC.saturation m)) ∧
    MWC.saturation m =
      (1 + Real.exp (-m.ep_ai) * (m.ka / m.ki) ^ m.n)⁻¹ :=
  ⟨by rw [pact_at_zero, MWC.leakiness],
   by rw [MWC.leakiness],
   pact_tendsto_saturation m hka hki,
   by rw [MWC.saturation]⟩

/-- C4 witness: the wild-type constants `ka = 139`, `ki = 0.53`,
`n_sites = 2`, `ep_ai = 4.5`. -/
theorem C4_leakiness_saturation_limits_witness :
    MWC.leakiness ⟨0, 4.5, 2, 139, 0.53⟩ =
      (1 + Real.exp (-(4.5 : ℝ)))⁻¹ :=
  (C4_leakiness_saturation_limits ⟨0, 4.5, 2, 139, 0.53⟩ (by norm_num)
    (by norm_num) (by norm_num)).2.1

/-- C7 counterexample: with `average = ["x_sem", "x"]` the dict writes
collide — per bin, the mean of column `x_sem` is stored under key `x_sem`
and then overwritten by the standard error of column `x` — so on the
one-row dataframe whose `x` value is 4 and whose `x_sem` value is 7, the
dict holds `[0, 0]` under key `x_sem` while the per-group mean array of
column `x_sem` is `[7, 0]`: the dict does not hold the means of every
averaged column under its own key. -/
theorem C7_counterexample_sem_collision :
    bin_by_events [fun s => if s = "x" then (4 : ℝ) else 7] 1 "x"
        ["x_sem", "x"] "x_sem" = some [0, 0] ∧
    mean_array [fun s => if s = "x" then (4 : ℝ) else 7] 1 "x" "x_sem" =
      [7, 0] ∧
    some [(0 : ℝ), 0] ≠ some [(7 : ℝ), 0] := by
  have hsort : sort_values [fun s => if s = "x" then (4 : ℝ) else 7] "x" =
      [fun s => if s = "x" then (4 : ℝ) else 7] :=
    List.mergeSort_singleton _
  have hgv : ∀ K : String,
      groupVals [fun s => if s = "x" then (4 : ℝ) else 7] 1 "x" K 0 =
        [if K = "x" then (4 : ℝ) else 7] := by
    intro K
    rw [groupVals, hsort]
    simp
  have hmean : ∀ K : String,
      npMean (groupVals [fun s => if s = "x" then (4 : ℝ) else 7] 1 "x" K 0)
        = if K = "x" then (4 : ℝ) else 7 := by
    intro K
    rw [hgv, npMean]
    simp
  have hstd : ∀ K : String,
      npStd (groupVals [fun s => if s = "x" then (4 : ℝ) else 7] 1 "x" K 0)
        = 0 := by
    intro K
    rw [hgv, npStd, npMean]
    simp
  have hB : numBins (List.length [fun s => if s = "x" then (4 : ℝ) else 7]) 1
      = 2 := rfl
  have hm7 : npMean (groupVals [fun s => if s = "x" then (4 : ℝ) else 7]
      1 "x" "x_sem" 0) = 7 := by
    rw [hmean, if_neg (by decide : ("x_sem" : String) ≠ "x")]
  have hs0 : npStd (groupVals [fun s => if s = "x" then (4 : ℝ) else 7]
        1 "x" "x" 0) /
      Real.sqrt ((groupVals [fun s => if s = "x" then (4 : ℝ) else 7]
        1 "x" "x" 0).length) = 0 := by
    rw [hstd, hgv]
    norm_num
  have h0 : bin_init 2 ["x_sem", "x"] "x_sem" = some [0, 0] := by
    rw [bin_init, if_pos (by decide)]
    rfl
  refine ⟨?_, ?_, by simp⟩
  · rw [bin_by_events, hB]
    show (["x_sem", "x"].foldl
        (fun d' k => bin_step [fun s => if s = "x" then (4 : ℝ) else 7]
          1 "x" 0 d' k)
        (bin_init 2 ["x_sem", "x"])) "x_sem" = some [0, 0]
    simp only [List.foldl_cons, List.foldl_nil, bin_step]
    rw [dictWrite_ne _ _ _ _ _ (by decide : ("x_sem" : String) ≠ "x"),
      dictWrite_eq _ _ _ _ _ (by decide : ("x_sem" : String) = "x" ++ "_sem"),
      dictWrite_eq _ _ _ _ _ (by decide : ("x" : String) ++ "_sem" = "x_sem"),
      dictWrite_ne _ _ _ _ _
        (by decide : ("x_sem" : String) ≠ "x_sem" ++ "_sem"),
      h0, hm7, hs0]
    rfl
  · rw [mean_array, hB]
    show fill_loop
        (fun j => npMean (groupVals [fun s => if s = "x" then (4 : ℝ) else 7]
          1 "x" "x_sem" j)) (0 + 1) (List.replicate 2 0) = [7, 0]
    rw [fill_loop_succ]
    show (fill_loop _ 0 (List.replicate 2 0)).set 0
        (npMean (groupVals [fun s => if s = "x" then (4 : ℝ) else 7]
          1 "x" "x_sem" 0)) = [7, 0]
    rw [hm7]
    rfl

/-- C7 (amended): provided no averaged column is itself named
`k ++ "_sem"` for an averaged column `k` (so that no dict writes collide),
`bin_by_events` sorts the rows ascending by the `sortby` column, partitions
the sorted rows into consecutive `bin_size`-event groups (the groups
concatenate back to the sorted dataframe), and returns a dict holding
per-group means under each averaged column `k` and per-group standard
errors (std divided by the square root of the group size) under `k_sem`;
every array has length `len(np.arange(0, len(df) + bin_size, bin_size))`
and its unused trailing entry is left at zero. -/
theorem C7_bin_by_events_spec (df : List Row) (b : ℕ) (sortby : String)
    (average : List String) (k : String) (hdf : df ≠ []) (hb : 0 < b)
    (hk : k ∈ average)
    (hcol : ∀ k₁ ∈ average, ∀ k₂ ∈ average, k₁ ++ "_sem" ≠ k₂) :
    (sort_values df sortby).Perm df ∧
    List.Sorted (fun r r' : Row => r sortby ≤ r' sortby)
      (sort_values df sortby) ∧
    ((List.range (numBins df.length b - 1)).map fun j =>
      ((sort_values df sortby).drop (j * b)).take b).flatten =
        sort_values df sortby ∧
    bin_by_events df b sortby average k =
      some (mean_array df b sortby k) ∧
    bin_by_events df b sortby average (k ++ "_sem") =
      some (sem_array df b sortby k) ∧
    (mean_array df b sortby k).length = numBins df.length b ∧
    (sem_array df b sortby k).length = numBins df.length b ∧
    (∀ j, j + 1 < numBins df.length b →
      (mean_array df b sortby k)[j]? =
        some (npMean (groupVals df b sortby k j)) ∧
      (sem_array df b sortby k)[j]? =
        some (npStd (groupVals df b sortby k j) /
          Real.sqrt ((groupVals df b sortby k j).length))) ∧
    (mean_array df b sortby k)[numBins df.length b - 1]? = some 0 ∧
    (sem_array df b sortby k)[numBins df.length b - 1]? = some 0 := by
  refine ⟨List.mergeSort_perm df _,
    sorted_mergeSort_key (fun r => r sortby) df, ?_,
    bin_by_events_mean_key df b sortby average k hk hcol,
    bin_by_events_sem_key df b sortby average k hk hcol,
    mean_array_length df b sortby k, sem_array_length df b sortby k,
    fun j hj => ⟨mean_array_getElem? df b sortby k j hj,
      sem_array_getElem? df b sortby k j hj⟩,
    mean_array_last df b sortby k hb, sem_array_last df b sortby k hb⟩
  apply flatten_take_drop
  have hlen : (sort_values df sortby).length = df.length :=
    (List.mergeSort_perm df _).length_eq
  rw [hlen]
  exact numBins_covers df.length b hb

/-- C7 witness: a three-row dataframe binned in groups of two events, with
the single collision-free averaged column `x`. -/
theorem C7_bin_by_events_spec_witness :
    bin_by_events ([fun _ => 3, fun _ => 1, fun _ => 2] : List Row) 2 "x"
      ["x"] "x" =
      some (mean_array ([fun _ => 3, fun _ => 1, fun _ => 2] : List Row)
        2 "x" "x") :=
  (C7_bin_by_events_spec ([fun _ => 3, fun _ => 1, fun _ => 2] : List Row)
    2 "x" ["x"] "x" (by simp) (by norm_num) (by simp)
    (by intro k₁ h₁ k₂ h₂
        simp only [List.mem_singleton] at h₁ h₂
        subst h₁
        subst h₂
        decide)).2.2.2.1

/-- C8: `SimpleRepression.saturation` returns `None` for every allosteric
instance (the bare `return` precedes the fold-change computation) and raises
`RuntimeError` for every non-allosteric instance. -/
theorem C8_saturation_returns_none (s : SimpleRepression) (wpa : Bool)
    (num_pol : Option ℝ) (ep_pol : ℝ) :
    (s.allo = true →
      SimpleRepression.saturation s wpa num_pol ep_pol = Except.ok none) ∧
    (s.allo = false →
      SimpleRepression.saturation s wpa num_pol ep_pol = Except.error
        "Saturation is only defined for allosteric molecules. (`allosteric = True`)") := by
  obtain ⟨R, ep_r, n_ns, mwc⟩ := s
  constructor
  · intro h
    cases mwc with
    | none => simp [SimpleRepression.allo] at h
    | some m => rfl
  · intro h
    cases mwc with
    | none => rfl
    | some m => simp [SimpleRepression.allo] at h

/-- C8 witness: a concrete allosteric instance returns `ok none`, a concrete
non-allosteric instance errors. -/
theorem C8_saturation_returns_none_witness :
    SimpleRepression.saturation ⟨100, -13.9, 4.6e6, some ⟨0, 4.5, 2, 139, 0.53⟩⟩
      true none 0 = Except.ok none ∧
    SimpleRepression.saturation ⟨100, -13.9, 4.6e6, none⟩ true none 0 =
      Except.error
        "Saturation is only defined for allosteric molecules. (`allosteric = True`)" :=
  ⟨(C8_saturation_returns_none ⟨100, -13.9, 4.6e6,
      some ⟨0, 4.5, 2, 139, 0.53⟩⟩ true none 0).1 rfl,
   (C8_saturation_returns_none ⟨100, -13.9, 4.6e6, none⟩ true none 0).2 rfl⟩

/-- C9: every call of `SimpleRepression.leakiness` hits the undefined bare
name `fold_change` and every call of `SimpleRepression.dynamic_range` hits
the undefined bare name `saturation`, so both raise `NameError` regardless
of arguments and of allostery. -/
theorem C9_nameerror (s : SimpleRepression) (wpa : Bool) (num_pol : Option ℝ)
    (ep_pol : ℝ) :
    SimpleRepression.leakiness s wpa num_pol ep_pol =
      Except.error "NameError: name fold_change is not defined" ∧
    SimpleRepression.dynamic_range s wpa num_pol ep_pol =
      Except.error "NameError: name saturation is not defined" := by
  constructor
  · simp only [SimpleRepression.leakiness, pyGlobalCall]
    rw [if_neg (by decide)]
    rfl
  · simp only [SimpleRepression.dynamic_range, pyGlobalCall]
    rw [if_neg (by decide)]
    rfl

/-- C10 counterexample: on the empty input `ecdf` performs no elementwise
division at all and returns a pair of empty arrays, contradicting the
claim's final clause. -/
theorem C10_counterexample_empty : ecdf ([] : List ℝ) = ([], []) := by
  simp [ecdf]

/-- C10 (amended): for a nonempty input of length `n`, `ecdf` returns the
sorted data paired with `[0/n, …, (n-1)/n]`: the first ECDF value is `0`,
the last is `(n-1)/n`, and the value `1` is never attained; for an empty
input it returns a pair of empty arrays. -/
theorem C10_ecdf_spec (l : List ℝ) (hl : l ≠ []) :
    (ecdf l).1.Perm l ∧
    List.Sorted (· ≤ ·) (ecdf l).1 ∧
    (ecdf l).2 =
      ((List.range l.length).map fun i : ℕ => (i : ℝ) / l.length) ∧
    (ecdf l).2.head? = some 0 ∧
    (ecdf l).2.getLast? = some (((l.length : ℝ) - 1) / l.length) ∧
    (∀ y ∈ (ecdf l).2, y < 1) ∧
    ecdf ([] : List ℝ) = ([], []) := by
  have h0 : l.length ≠ 0 := fun h => hl (List.eq_nil_of_length_eq_zero h)
  refine ⟨List.mergeSort_perm l _, sorted_mergeSort_key (fun x => x) l, rfl,
    ?_, ?_, ?_, by simp [ecdf]⟩
  · obtain ⟨m, hm⟩ : ∃ m, l.length = m + 1 := ⟨l.length - 1, by omega⟩
    show ((List.range l.length).map fun i : ℕ => (i : ℝ) / l.length).head? =
      some 0
    rw [hm, List.range_succ_eq_map, List.map_cons, List.head?_cons]
    norm_num
  · show ((List.range l.length).map
        fun i : ℕ => (i : ℝ) / l.length).getLast? =
      some (((l.length : ℝ) - 1) / l.length)
    rw [List.getLast?_eq_getElem?, List.length_map, List.length_range,
      List.getElem?_map, List.getElem?_range (by omega)]
    simp only [Option.map_some']
    rw [Nat.cast_sub (by omega), Nat.cast_one]
  · intro y hy
    simp only [ecdf, List.mem_map, List.mem_range] at hy
    obtain ⟨i, hi, rfl⟩ := hy
    rw [div_lt_one (by exact_mod_cast Nat.pos_of_ne_zero h0)]
    exact_mod_cast hi

/-- C10 witness: the ECDF of the two-point list `[2, 1]`. -/
theorem C10_ecdf_spec_witness :
    (ecdf [2, 1]).2.getLast? =
      some ((((2 : ℕ) : ℝ) - 1) / ((2 : ℕ) : ℝ)) :=
  (C10_ecdf_spec [2, 1] (by simp)).2.2.2.2.1
